import Mathlib

/-
Verification of the variant-merging and resource-deduplication engine of
`USD-Support-Scripts/variant_combiner.py` against its specification.

The embedding below translates the relevant parts of the Python source into
Lean definitions:

* A prim path is a list of name segments from the root.
* A `Stage` is the flattened scene graph as the script observes it: the set of
  prim paths, the `material:binding` and `skel:animationSource` relationship
  states keyed by prim path, the default prim, and the start/end time codes.
  Time codes (doubles in USD) are modelled as integers: every claim about them
  is purely order-theoretic (min/max), which carries over unchanged.
* The combined graph's variant set (`UsdVariantSet` on the default prim) is a
  `VariantSet`: member names, the per-variant relationship edits authored
  inside `GetVariantEditContext` blocks, and the current selection.
* Filesystem state for the resource store is a finite map from path to file
  content; the sha256 digest is modelled by the content itself (an ideal,
  collision-free hash), which is the identification the spec reasons with.
-/

set_option autoImplicit false

abbrev PrimPath := List String

/-- First-match association-list lookup (Python `dict.get`). -/
def listLookup {α β : Type} [DecidableEq α] (k : α) : List (α × β) → Option β
  | [] => none
  | e :: rest => if e.1 = k then some e.2 else listLookup k rest

/-- Remove every entry with the given key. -/
def eraseKey {α β : Type} [DecidableEq α] (k : α) : List (α × β) → List (α × β)
  | [] => []
  | e :: rest => if e.1 = k then eraseKey k rest else e :: eraseKey k rest

/-- Number of entries with the given key. -/
def countKey {α β : Type} [DecidableEq α] (k : α) : List (α × β) → Nat
  | [] => 0
  | e :: rest => (if e.1 = k then 1 else 0) + countKey k rest

/-- State of a tracked relationship on a prim: its ordered target paths plus
the `bindMaterialAs` metadata (unused for `skel:animationSource`). -/
structure RelState where
  targets : List PrimPath
  bindMaterialAs : Option String
  deriving DecidableEq, Repr

/-- A flattened stage as `variant_combiner.py` observes it. -/
structure Stage where
  prims : List PrimPath
  matRels : List (PrimPath × RelState)
  animRels : List (PrimPath × RelState)
  defaultPrim : PrimPath
  startTimeCode : Int
  endTimeCode : Int
  deriving DecidableEq, Repr

/-- Names of the children of `parent` among the given prim paths
(`parent.GetChildrenNames()`). -/
def childrenNames (prims : List PrimPath) (parent : PrimPath) : List String :=
  prims.filterMap fun q => if q.dropLast = parent then q.getLast? else none

/-- The collision-avoidance loop in `VariantCombiner.copy_prim` (lines
428-432 of the source):

    count = 0
    new_name = name
    while new_name in names:
        count += 1
        new_name = f"\x7bnew_name\x7d_\x7bcount\x7d"

Note the suffix is appended to the evolving `new_name`, not to the original
`name`.  `fuel` bounds the loop; each candidate is strictly longer than the
last, so `names.length + 1` iterations always suffice to exit. -/
def freshNameAux (names : List String) (cur : String) (count : Nat) : Nat → String
  | 0 => cur
  | fuel + 1 =>
      if cur ∈ names then
        freshNameAux names (cur ++ "_" ++ toString (count + 1)) (count + 1) fuel
      else cur

def freshName (names : List String) (name : String) : String :=
  freshNameAux names name 0 (names.length + 1)

/-- `VariantCombiner.copy_prim` (source lines 418-443): clone the subtree at
`srcPath` of the source stage `src` into the combined stage `st`.  The parent
in the combined stage is the prim at the source parent's path when it exists
(the root path always exists as the pseudo-root), the default prim otherwise.
The new child name is produced by the collision loop; `Sdf.CopySpec` then
copies the whole subtree (paths and relationship specs) to the new path. -/
def copy_prim (st : Stage) (src : Stage) (srcPath : PrimPath) : Stage × PrimPath :=
  let name := (srcPath.getLast?).getD ""
  let parentPath := srcPath.dropLast
  let parent := if parentPath = [] ∨ parentPath ∈ st.prims then parentPath else st.defaultPrim
  let names := childrenNames st.prims parent
  let newName := freshName names name
  let newPath := parent ++ [newName]
  let subtreePrims := src.prims.filterMap fun q =>
    if q.take srcPath.length = srcPath then some (newPath ++ q.drop srcPath.length) else none
  let subtreeMat := src.matRels.filterMap fun e =>
    if e.1.take srcPath.length = srcPath then
      some (newPath ++ e.1.drop srcPath.length, e.2) else none
  let subtreeAnim := src.animRels.filterMap fun e =>
    if e.1.take srcPath.length = srcPath then
      some (newPath ++ e.1.drop srcPath.length, e.2) else none
  ({ st with
      prims := st.prims ++ subtreePrims,
      matRels := st.matRels ++ subtreeMat,
      animRels := st.animRels ++ subtreeAnim }, newPath)

/-- Python truthiness of the `bindMaterialAs` metadata string: `None` and the
empty string are falsy (`if bindMaterialAs:` in the source). -/
def truthyMeta (m : Option String) : Option String :=
  match m with
  | none => none
  | some s => if s = "" then none else some s

/-- A relationship override authored inside one variant's edit context. -/
structure VariantEdit where
  prim : PrimPath
  rel : RelState
  deriving DecidableEq, Repr

/-- The variant set built on the combined stage's default prim: registered
variant names, the edits authored inside each variant's edit context (keyed by
variant name, in authoring order), and the current variant selection. -/
structure VariantSet where
  vsName : String
  variants : List String
  edits : List (String × VariantEdit)
  selection : Option String
  deriving DecidableEq, Repr

/-- `vset.AddVariant(name)`: registering an already-present name is a no-op. -/
def addVariant (vs : List String) (n : String) : List String :=
  if n ∈ vs then vs else vs ++ [n]

/-- The per-relationship target rewriting loop shared by
`setup_material_variants` (source lines 315-326) and
`setup_animation_variants` (source lines 388-399):

    for i, target in enumerate(targets):
        if target in material_map:
            targets[i] = material_map[target]
            continue
        target_prim = var_stage.GetPrimAtPath(target)
        if not target_prim:
            print(...)   # missing target: leave targets[i] unchanged
            continue
        new_path = self.copy_prim(target_prim)
        targets[i] = new_path

The map `m` (`material_map` / `anim_map`) is read but never written in the
source, and the embedding faithfully threads it unchanged.  Returns the
combined stage after any clones, the (unchanged) map, and the rewritten
target list. -/
def processTargets (st : Stage) (varSt : Stage) (m : List (PrimPath × PrimPath)) :
    List PrimPath → Stage × List (PrimPath × PrimPath) × List PrimPath
  | [] => (st, m, [])
  | t :: ts =>
    match listLookup t m with
    | some p =>
        let r := processTargets st varSt m ts
        (r.1, r.2.1, p :: r.2.2)
    | none =>
        if t ∈ varSt.prims then
          let c := copy_prim st varSt t
          let r := processTargets c.1 varSt m ts
          (r.1, r.2.1, c.2 :: r.2.2)
        else
          let r := processTargets st varSt m ts
          (r.1, r.2.1, t :: r.2.2)

/-- One prim of the base-document branch of `setup_material_variants`
(source lines 283-298).  For a prim carrying a `material:binding`
relationship: capture targets and `bindMaterialAs`, `ClearTargets(True)`
(drops the unconditional relationship spec), then re-author the captured
targets (and the metadata, when truthy) inside the variant's edit context.
There is no empty-target guard on this axis. -/
def materialBasePrim (variantName : String) (acc : Stage × VariantSet) (p : PrimPath) :
    Stage × VariantSet :=
  match listLookup p acc.1.matRels with
  | none => acc
  | some r =>
      ({ acc.1 with matRels := eraseKey p acc.1.matRels },
       { acc.2 with
          selection := some variantName,
          edits := acc.2.edits ++ [(variantName, ⟨p, ⟨r.targets, truthyMeta r.bindMaterialAs⟩⟩)] })

/-- One prim of the base-document branch of `setup_animation_variants`
(source lines 352-365).  Unlike the material axis this branch skips
relationships with no authored target (`if not val: continue`), and it
authors no edge metadata inside the edit context. -/
def animationBasePrim (variantName : String) (acc : Stage × VariantSet) (p : PrimPath) :
    Stage × VariantSet :=
  match listLookup p acc.1.animRels with
  | none => acc
  | some r =>
      if r.targets = [] then acc
      else
        ({ acc.1 with animRels := eraseKey p acc.1.animRels },
         { acc.2 with
            selection := some variantName,
            edits := acc.2.edits ++ [(variantName, ⟨p, ⟨r.targets, none⟩⟩)] })

/-- One prim of the variant-document branch of `setup_material_variants`
(source lines 303-333): skip prims without the relationship, skip prims whose
path is absent from the combined stage (hierarchy mismatch), otherwise rewrite
each target through the map / `copy_prim` and author the rewritten list (plus
truthy `bindMaterialAs`) inside the variant's edit context. -/
def materialVarPrim (variantName : String) (varSt : Stage)
    (acc : Stage × VariantSet × List (PrimPath × PrimPath)) (p : PrimPath) :
    Stage × VariantSet × List (PrimPath × PrimPath) :=
  match listLookup p varSt.matRels with
  | none => acc
  | some r =>
      if p ∈ acc.1.prims then
        let pr := processTargets acc.1 varSt acc.2.2 r.targets
        (pr.1,
         { acc.2.1 with
            selection := some variantName,
            edits := acc.2.1.edits ++
              [(variantName, ⟨p, ⟨pr.2.2, truthyMeta r.bindMaterialAs⟩⟩)] },
         pr.2.1)
      else acc

/-- One prim of the variant-document branch of `setup_animation_variants`
(source lines 377-404); identical to the material case except the tracked
relationship is `skel:animationSource` and no metadata is authored. -/
def animationVarPrim (variantName : String) (varSt : Stage)
    (acc : Stage × VariantSet × List (PrimPath × PrimPath)) (p : PrimPath) :
    Stage × VariantSet × List (PrimPath × PrimPath) :=
  match listLookup p varSt.animRels with
  | none => acc
  | some r =>
      if p ∈ acc.1.prims then
        let pr := processTargets acc.1 varSt acc.2.2 r.targets
        (pr.1,
         { acc.2.1 with
            selection := some variantName,
            edits := acc.2.1.edits ++ [(variantName, ⟨p, ⟨pr.2.2, none⟩⟩)] },
         pr.2.1)
      else acc

/-- One `(file_path, variant_name)` entry of the `setup_material_variants`
loop (source lines 279-333).  `none` marks the entry whose path equals the
base document's path; `some varSt` is a loaded and flattened variant stage.
A fresh, empty `material_map` is created for each variant document. -/
def materialEntry (acc : Stage × VariantSet) (entry : Option Stage × String) :
    Stage × VariantSet :=
  let vset1 : VariantSet := { acc.2 with variants := addVariant acc.2.variants entry.2 }
  match entry.1 with
  | none => acc.1.prims.foldl (materialBasePrim entry.2) (acc.1, vset1)
  | some varSt =>
      let r := varSt.prims.foldl (materialVarPrim entry.2 varSt)
        (acc.1, vset1, ([] : List (PrimPath × PrimPath)))
      (r.1, r.2.1)

/-- The incremental time-range update of `setup_animation_variants`
(source lines 370-375), applied once per non-base variant document:

    if maximize_timecode:
        start = min(start, var_stage.GetStartTimeCode())
        end = max(end, var_stage.GetEndTimeCode())
    else:
        start = max(start, var_stage.GetStartTimeCode())
        end = min(end, var_stage.GetEndTimeCode())
-/
def reconcileStep (maximizeTimecode : Bool) (acc : Int × Int) (varSt : Stage) : Int × Int :=
  if maximizeTimecode then (min acc.1 varSt.startTimeCode, max acc.2 varSt.endTimeCode)
  else (max acc.1 varSt.startTimeCode, min acc.2 varSt.endTimeCode)

/-- One `(file_path, variant_name)` entry of the `setup_animation_variants`
loop (source lines 347-404).  The running `(start, end)` pair is updated only
on the variant-document branch; the base-document branch leaves it alone. -/
def animationEntry (maximizeTimecode : Bool)
    (acc : Stage × VariantSet × Int × Int) (entry : Option Stage × String) :
    Stage × VariantSet × Int × Int :=
  let vset1 : VariantSet := { acc.2.1 with variants := addVariant acc.2.1.variants entry.2 }
  match entry.1 with
  | none =>
      let r := acc.1.prims.foldl (animationBasePrim entry.2) (acc.1, vset1)
      (r.1, r.2, acc.2.2)
  | some varSt =>
      let t := reconcileStep maximizeTimecode acc.2.2 varSt
      let r := varSt.prims.foldl (animationVarPrim entry.2 varSt)
        (acc.1, vset1, ([] : List (PrimPath × PrimPath)))
      (r.1, r.2.1, t)

/-- `VariantCombiner.setup_material_variants` (source lines 273-336) over an
ordered entry list.  An empty mapping returns immediately with no variant set;
otherwise the variant set is created on the default prim, every entry is
processed in order, and finally the selection is set to the first entry's
variant name (`list(material_variants.values())[0]`). -/
def setup_material_variants (vsName : String) (entries : List (Option Stage × String))
    (st : Stage) : Stage × Option VariantSet :=
  match entries with
  | [] => (st, none)
  | e :: tl =>
      let r := (e :: tl).foldl materialEntry (st, ⟨vsName, [], [], none⟩)
      (r.1, some { r.2 with selection := some (((e :: tl).map Prod.snd).headD "") })

/-- `VariantCombiner.setup_animation_variants` (source lines 338-408) over an
ordered entry list.  The running time range is seeded from the base stage's
own start/end time codes and written back to the stage after the loop. -/
def setup_animation_variants (vsName : String) (maximizeTimecode : Bool)
    (entries : List (Option Stage × String)) (st : Stage) : Stage × Option VariantSet :=
  match entries with
  | [] => (st, none)
  | e :: tl =>
      let r := (e :: tl).foldl (animationEntry maximizeTimecode)
        (st, ⟨vsName, [], [], none⟩, st.startTimeCode, st.endTimeCode)
      ({ r.1 with startTimeCode := r.2.2.1, endTimeCode := r.2.2.2 },
       some { r.2.1 with selection := some (((e :: tl).map Prod.snd).headD "") })

/-- The source filesystem visible to the resource store: a finite map from
file path to file content.  A path absent from the map models a file that
does not exist.  The sha256 digest of a file is modelled by its content
itself (an ideal, collision-free hash), so equal digest means equal entry. -/
structure FS where
  files : List (String × String)
  deriving DecidableEq, Repr

/-- `VariantCombiner.get_file_hash` (source lines 266-271): a missing file is
reported and yields `None`; otherwise the content digest is returned. -/
def get_file_hash (fs : FS) (filePath : String) : Option String :=
  listLookup filePath fs.files

/-- `os.path.basename`: the part of the path after the last slash. -/
def basename (p : String) : String :=
  String.mk ((p.toList.reverse.takeWhile (fun ch => ch ≠ '/')).reverse)

/-- `os.path.splitext` on a file name: split at the last dot, except that a
run of leading dots never starts an extension. -/
def splitext (name : String) : String × String :=
  let cs := name.toList
  let lead := cs.takeWhile (fun ch => ch = '.')
  let rest := cs.drop lead.length
  let after := rest.reverse.takeWhile (fun ch => ch ≠ '.')
  if after.length = rest.length then (name, "")
  else
    (String.mk (lead ++ rest.take (rest.length - after.length - 1)),
     String.mk (rest.drop (rest.length - after.length - 1)))

/-- The scratch-area state of the resource store: the file names present in
`self.temp_dir` and the `self.resources` digest-to-stored-name map.  Stored
paths are modelled by the file name inside the scratch directory (the
`temp_dir` prefix is a constant).  The map's key type is `Option String`
because the source uses the result of `get_file_hash` — possibly `None` — as
the dictionary key unchecked. -/
structure ResourceStore where
  tempDirFiles : List String
  resources : List (Option String × String)
  deriving DecidableEq, Repr

/-- The collision-avoidance loop in `VariantCombiner.copy_resource` (source
lines 254-257): unlike `copy_prim`, each candidate is built from the original
`base` and `ext`, so collisions yield `base`, `base_1.ext`, `base_2.ext`, ...
`fuel` bounds the loop as in `freshNameAux`. -/
def resNameAux (existing : List String) (base ext : String) (cur : String) (count : Nat) :
    Nat → String
  | 0 => cur
  | fuel + 1 =>
      if cur ∈ existing then
        resNameAux existing base ext (base ++ "_" ++ toString (count + 1) ++ ext) (count + 1) fuel
      else cur

def resName (existing : List String) (base ext fileName : String) : String :=
  resNameAux existing base ext fileName 0 (existing.length + 1)

/-- `VariantCombiner.copy_resource` (source lines 245-264).  If the digest is
already interned the stored name is returned with no copy.  Otherwise a
collision-free name is chosen and the file is copied into the scratch area —
but `shutil.copy` raises an uncaught `FileNotFoundError` when the source file
does not exist (the `None` digest from `get_file_hash` is used unchecked), so
that case is an exception propagating out of the call, modelled as
`Except.error` carrying the offending path. -/
def copy_resource (fs : FS) (store : ResourceStore) (filePath : String) :
    Except String (ResourceStore × String) :=
  let fileHash := get_file_hash fs filePath
  match listLookup fileHash store.resources with
  | some resource => Except.ok (store, resource)
  | none =>
      let fileName0 := basename filePath
      let be := splitext fileName0
      let fileName := resName store.tempDirFiles be.1 be.2 fileName0
      match fileHash with
      | some _ =>
          Except.ok
            ({ tempDirFiles := store.tempDirFiles ++ [fileName],
               resources := store.resources ++ [(fileHash, fileName)] }, fileName)
      | none => Except.error filePath

/-- Directory state for the cleanup model: the set of existing directories
and the subset whose recursive removal fails with an `OSError` (permissions,
concurrent access, ...).  `os.path.abspath` is modelled as the identity. -/
@[ext]
structure World where
  dirs : List String
  locked : List String
  deriving DecidableEq, Repr

/-- `shutil.rmtree`: raises `OSError` when the directory does not exist
(`FileNotFoundError`) or cannot be removed; otherwise removes it. -/
def rmtree (w : World) (p : String) : Except Unit World :=
  if p ∉ w.dirs then Except.error ()
  else if p ∈ w.locked then Except.error ()
  else Except.ok { w with dirs := w.dirs.erase p }

/-- `VariantCombiner.cleanup` (source lines 234-240): attempt `rmtree` on
each recorded scratch directory, swallowing every `OSError`:

    for path in self.cleanup_dirs:
        path = os.path.abspath(path)
        try:
            shutil.rmtree(path)
        except OSError as e:
            pass
-/
def cleanupStep (acc : World) (p : String) : World :=
  match rmtree acc p with
  | Except.ok w2 => w2
  | Except.error _ => acc

def cleanup (w : World) (cleanupDirs : List String) : World :=
  cleanupDirs.foldl cleanupStep w

/-- `x` is the minimum of the (non-empty) list `l`: it bounds every element
from below and is attained.  Used to state the spec's "min of starts across
all documents" without restating the implementation's fold. -/
def isMinOf (x : Int) (l : List Int) : Prop :=
  (∀ y ∈ l, x ≤ y) ∧ x ∈ l

/-- `x` is the maximum of the (non-empty) list `l`: it bounds every element
from above and is attained. -/
def isMaxOf (x : Int) (l : List Int) : Prop :=
  (∀ y ∈ l, y ≤ x) ∧ x ∈ l

/-! ### Helper lemmas -/

lemma listLookup_eraseKey {α β : Type} [DecidableEq α] (k : α) :
    ∀ l : List (α × β), listLookup k (eraseKey k l) = none := by
  intro l
  induction l with
  | nil => rfl
  | cons e rest ih =>
      by_cases he : e.1 = k <;> simp [eraseKey, listLookup, he, ih]

lemma listLookup_append_self {α β : Type} [DecidableEq α] (k : α) (v : β) :
    ∀ l : List (α × β), listLookup k l = none → listLookup k (l ++ [(k, v)]) = some v := by
  intro l
  induction l with
  | nil => intro _; simp [listLookup]
  | cons e rest ih =>
      intro h
      by_cases he : e.1 = k
      · simp [listLookup, he] at h
      · simp [listLookup, he] at h ⊢
        exact ih h

lemma countKey_eq_zero {α β : Type} [DecidableEq α] (k : α) :
    ∀ l : List (α × β), listLookup k l = none → countKey k l = 0 := by
  intro l
  induction l with
  | nil => intro _; rfl
  | cons e rest ih =>
      intro h
      by_cases he : e.1 = k
      · simp [listLookup, he] at h
      · simp [listLookup, he] at h
        simp [countKey, he, ih h]

lemma countKey_append {α β : Type} [DecidableEq α] (k : α) (l2 : List (α × β)) :
    ∀ l1 : List (α × β), countKey k (l1 ++ l2) = countKey k l1 + countKey k l2 := by
  intro l1
  induction l1 with
  | nil => simp [countKey]
  | cons e rest ih => simp [countKey, ih]; omega

lemma cleanupStep_locked (w : World) (p : String) : (cleanupStep w p).locked = w.locked := by
  unfold cleanupStep rmtree
  by_cases h1 : p ∈ w.dirs
  · by_cases h2 : p ∈ w.locked <;> simp [h1, h2]
  · simp [h1]

lemma cleanupStep_dirs (w : World) (p : String) :
    (cleanupStep w p).dirs =
      if p ∈ w.dirs ∧ p ∉ w.locked then w.dirs.erase p else w.dirs := by
  unfold cleanupStep rmtree
  by_cases h1 : p ∈ w.dirs
  · by_cases h2 : p ∈ w.locked <;> simp [h1, h2]
  · simp [h1]

lemma cleanup_locked_eq (ds : List String) : ∀ w : World, (cleanup w ds).locked = w.locked := by
  induction ds with
  | nil => intro w; rfl
  | cons p tl ih =>
      intro w
      have hstep : cleanup w (p :: tl) = cleanup (cleanupStep w p) tl := rfl
      rw [hstep, ih, cleanupStep_locked]

lemma cleanup_dirs_eq (ds : List String) : ∀ w : World, w.dirs.Nodup →
    (cleanup w ds).dirs
      = w.dirs.filter (fun d => decide (d ∈ w.locked) || !decide (d ∈ ds)) := by
  induction ds with
  | nil =>
      intro w _
      simp [cleanup]
  | cons p tl ih =>
      intro w hw
      have hstep : cleanup w (p :: tl) = cleanup (cleanupStep w p) tl := rfl
      have hnd : (cleanupStep w p).dirs.Nodup := by
        rw [cleanupStep_dirs]
        split
        · exact hw.erase p
        · exact hw
      rw [hstep, ih (cleanupStep w p) hnd, cleanupStep_locked, cleanupStep_dirs]
      by_cases h1 : p ∈ w.dirs ∧ p ∉ w.locked
      · rw [if_pos h1, List.Nodup.erase_eq_filter hw p, List.filter_filter]
        apply List.filter_congr
        intro d hd
        by_cases hdp : d = p
        · subst hdp
          simp [h1.1, h1.2]
        · simp [hdp, List.mem_cons]
      · rw [if_neg h1]
        apply List.filter_congr
        intro d hd
        by_cases hdp : d = p
        · have hpl : d ∈ w.locked := by
            by_contra hc
            rw [hdp] at hd hc
            exact h1 ⟨hd, hc⟩
          simp [hpl]
        · simp [hdp, List.mem_cons]

lemma foldl_min_le (l : List Int) : ∀ a b : Int, b ∈ a :: l → List.foldl min a l ≤ b := by
  induction l with
  | nil =>
      intro a b hb
      simp at hb
      simp [hb]
  | cons c tl ih =>
      intro a b hb
      rw [List.foldl_cons]
      have hhead : List.foldl min (min a c) tl ≤ min a c :=
        ih (min a c) (min a c) (List.mem_cons_self _ _)
      rcases List.mem_cons.mp hb with hba | hb2
      · exact le_trans hhead (by rw [hba]; exact min_le_left a c)
      · rcases List.mem_cons.mp hb2 with hbc | hbtl
        · exact le_trans hhead (by rw [hbc]; exact min_le_right a c)
        · exact ih (min a c) b (List.mem_cons_of_mem _ hbtl)

lemma foldl_min_mem (l : List Int) : ∀ a : Int, List.foldl min a l ∈ a :: l := by
  induction l with
  | nil => intro a; simp
  | cons c tl ih =>
      intro a
      rw [List.foldl_cons]
      rcases List.mem_cons.mp (ih (min a c)) with h | h
      · rcases min_choice a c with hm | hm
        · rw [h, hm]; exact List.mem_cons_self _ _
        · rw [h, hm]; exact List.mem_cons_of_mem _ (List.mem_cons_self _ _)
      · exact List.mem_cons_of_mem _ (List.mem_cons_of_mem _ h)

lemma foldl_max_ge (l : List Int) : ∀ a b : Int, b ∈ a :: l → b ≤ List.foldl max a l := by
  induction l with
  | nil =>
      intro a b hb
      simp at hb
      simp [hb]
  | cons c tl ih =>
      intro a b hb
      rw [List.foldl_cons]
      have hhead : max a c ≤ List.foldl max (max a c) tl :=
        ih (max a c) (max a c) (List.mem_cons_self _ _)
      rcases List.mem_cons.mp hb with hba | hb2
      · exact le_trans (by rw [hba]; exact le_max_left a c) hhead
      · rcases List.mem_cons.mp hb2 with hbc | hbtl
        · exact le_trans (by rw [hbc]; exact le_max_right a c) hhead
        · exact ih (max a c) b (List.mem_cons_of_mem _ hbtl)

lemma foldl_max_mem (l : List Int) : ∀ a : Int, List.foldl max a l ∈ a :: l := by
  induction l with
  | nil => intro a; simp
  | cons c tl ih =>
      intro a
      rw [List.foldl_cons]
      rcases List.mem_cons.mp (ih (max a c)) with h | h
      · rcases max_choice a c with hm | hm
        · rw [h, hm]; exact List.mem_cons_self _ _
        · rw [h, hm]; exact List.mem_cons_of_mem _ (List.mem_cons_self _ _)
      · exact List.mem_cons_of_mem _ (List.mem_cons_of_mem _ h)

lemma animLoop_time (maxi : Bool) (entries : List (Option Stage × String)) :
    ∀ (st : Stage) (vs : VariantSet) (t : Int × Int),
      (entries.foldl (animationEntry maxi) (st, vs, t)).2.2 =
        (entries.filterMap Prod.fst).foldl (reconcileStep maxi) t := by
  induction entries with
  | nil => intro st vs t; rfl
  | cons e tl ih =>
      intro st vs t
      obtain ⟨eo, en⟩ := e
      cases eo with
      | none => simp [animationEntry, ih]
      | some varSt => simp [animationEntry, ih]

lemma reconcile_fold_true (docs : List Stage) : ∀ t : Int × Int,
    docs.foldl (reconcileStep true) t =
      (List.foldl min t.1 (docs.map Stage.startTimeCode),
       List.foldl max t.2 (docs.map Stage.endTimeCode)) := by
  induction docs with
  | nil => intro t; rfl
  | cons d tl ih =>
      intro t
      rw [List.foldl_cons, ih, List.map_cons, List.map_cons, List.foldl_cons, List.foldl_cons]
      rfl

lemma reconcile_fold_false (docs : List Stage) : ∀ t : Int × Int,
    docs.foldl (reconcileStep false) t =
      (List.foldl max t.1 (docs.map Stage.startTimeCode),
       List.foldl min t.2 (docs.map Stage.endTimeCode)) := by
  induction docs with
  | nil => intro t; rfl
  | cons d tl ih =>
      intro t
      rw [List.foldl_cons, ih, List.map_cons, List.map_cons, List.foldl_cons, List.foldl_cons]
      rfl

lemma setup_anim_time (vsName : String) (maxi : Bool)
    (entries : List (Option Stage × String)) (st : Stage) :
    ((setup_animation_variants vsName maxi entries st).1.startTimeCode,
     (setup_animation_variants vsName maxi entries st).1.endTimeCode) =
      (entries.filterMap Prod.fst).foldl (reconcileStep maxi)
        (st.startTimeCode, st.endTimeCode) := by
  cases entries with
  | nil => rfl
  | cons e tl =>
      show ((((e :: tl).foldl (animationEntry maxi)
          (st, ⟨vsName, [], [], none⟩, st.startTimeCode, st.endTimeCode)).2.2.1,
        ((e :: tl).foldl (animationEntry maxi)
          (st, ⟨vsName, [], [], none⟩, st.startTimeCode, st.endTimeCode)).2.2.2) = _)
      rw [← animLoop_time maxi (e :: tl) st ⟨vsName, [], [], none⟩
        (st.startTimeCode, st.endTimeCode)]

/-! ### Claim theorems -/

/-- Claim C1, counterexample.  The claim states that each collision suffix
`_<n>` is appended to the source node's own name, so that a third collision
on `X` yields `X_2`.  In the source the suffix is appended to the evolving
candidate, so cloning `X` under a parent that already has children `X` and
`X_1` yields the child `X_1_2`, not `X_2`. -/
theorem clone_naming_counterexample :
    (copy_prim
        (⟨[["Root"], ["Root", "X"], ["Root", "X_1"]], [], [], ["Root"], 0, 0⟩ : Stage)
        (⟨[["Root"], ["Root", "X"]], [], [], ["Root"], 0, 0⟩ : Stage)
        ["Root", "X"]).2 = ["Root", "X_1_2"] ∧
    (["Root", "X_1_2"] : PrimPath) ≠ ["Root", "X_2"] := by
  decide

/-- Claim C1, amended.  The chosen sibling name starts from the source node's
own name; a first collision appends `_1` to it; each further collision
appends `_<n>` to the **current candidate** rather than to the original name,
so colliding clones of `X` are named `X`, `X_1`, `X_1_2`, ...  In particular
cloning twice with colliding source name `X` under the same parent still
yields the two distinct children `X` and `X_1`, but a third collision yields
`X_1_2`. -/
theorem clone_naming_amended :
    (∀ (names : List String) (name : String),
       name ∉ names → freshName names name = name) ∧
    (∀ (names : List String) (name : String),
       name ∈ names → name ++ "_1" ∉ names → freshName names name = name ++ "_1") ∧
    ((copy_prim (⟨[["Root"]], [], [], ["Root"], 0, 0⟩ : Stage)
        (⟨[["Root"], ["Root", "X"]], [], [], ["Root"], 0, 0⟩ : Stage) ["Root", "X"]).2
      = ["Root", "X"] ∧
     (copy_prim
        (copy_prim (⟨[["Root"]], [], [], ["Root"], 0, 0⟩ : Stage)
          (⟨[["Root"], ["Root", "X"]], [], [], ["Root"], 0, 0⟩ : Stage) ["Root", "X"]).1
        (⟨[["Root"], ["Root", "X"]], [], [], ["Root"], 0, 0⟩ : Stage) ["Root", "X"]).2
      = ["Root", "X_1"] ∧
     freshName ["X", "X_1"] "X" = "X_1_2") := by
  refine ⟨?_, ?_, by decide⟩
  · intro names name h
    simp [freshName, freshNameAux, h]
  · intro names name h1 h2
    obtain ⟨k, hk⟩ : ∃ k, names.length = k + 1 := by
      cases names with
      | nil => simp at h1
      | cons a l => exact ⟨l.length, rfl⟩
    have hcand : name ++ "_" ++ toString (0 + 1) = name ++ "_1" := by
      have h3 : ("_" : String) ++ toString (0 + 1) = "_1" := rfl
      rw [String.append_assoc, h3]
    rw [freshName, hk]
    show freshNameAux names name 0 (k + 1 + 1) = name ++ "_1"
    rw [freshNameAux, if_pos h1, hcand, freshNameAux, if_neg h2]

/-- Witness for the amended claim C1 at concrete inputs. -/
theorem clone_naming_amended_witness :
    ("Mat" ∉ (["Geo"] : List String) ∧ freshName ["Geo"] "Mat" = "Mat") ∧
    ("Mat" ∈ (["Geo", "Mat"] : List String) ∧ "Mat" ++ "_1" ∉ (["Geo", "Mat"] : List String) ∧
      freshName ["Geo", "Mat"] "Mat" = "Mat" ++ "_1") :=
  ⟨⟨by decide, clone_naming_amended.1 ["Geo"] "Mat" (by decide)⟩,
   ⟨by decide, by decide, clone_naming_amended.2.1 ["Geo", "Mat"] "Mat" (by decide) (by decide)⟩⟩

/-- Claim C2: the identity map (`material_map` in `setup_material_variants`,
`anim_map` in `setup_animation_variants`) is created and consulted but never
written, so resolving the same literal source target path a second time is
NOT idempotent: the clone runs again and produces a second, differently-named
copy.  Evaluating the target-rewriting loop at the failing input — one
relationship whose target list names `/Root/Mat` twice — clones twice,
rewriting the two occurrences to the distinct paths `/Root/Mat` and
`/Root/Mat_1` and adding both clones to the combined stage, while leaving the
map empty. -/
theorem identity_map_not_populated :
    processTargets
        (⟨[["Root"], ["Root", "Geo"]], [], [], ["Root"], 0, 0⟩ : Stage)
        (⟨[["Root"], ["Root", "Geo"], ["Root", "Mat"]],
          [(["Root", "Geo"], ⟨[["Root", "Mat"], ["Root", "Mat"]], none⟩)],
          [], ["Root"], 0, 0⟩ : Stage)
        [] [["Root", "Mat"], ["Root", "Mat"]]
      = (⟨[["Root"], ["Root", "Geo"], ["Root", "Mat"], ["Root", "Mat_1"]],
          [], [], ["Root"], 0, 0⟩,
         [], [["Root", "Mat"], ["Root", "Mat_1"]]) ∧
    (["Root", "Mat"] : PrimPath) ≠ ["Root", "Mat_1"] := by
  decide

/-- Claim C6: when the resource file's source path does not exist,
`get_file_hash` logs and returns `None`, but `copy_resource` then hands the
missing path to `shutil.copy`, which raises an uncaught `FileNotFoundError`;
interning a missing resource therefore aborts the merge instead of being
skipped.  Evaluated at the failing input of an empty filesystem. -/
theorem missing_resource_aborts :
    get_file_hash (⟨[]⟩ : FS) "textures/missing.png" = none ∧
    copy_resource (⟨[]⟩ : FS) (⟨[], []⟩ : ResourceStore) "textures/missing.png"
      = Except.error "textures/missing.png" :=
  ⟨rfl, rfl⟩

/-- Claim C3: content-addressed deduplication.  For two file paths with the
same content digest, interning the first (when its digest is not yet
recorded) copies it exactly once into the scratch area — under its original
base name when that name is free — and interning the second returns the very
same stored name with the store unchanged (no second copy); afterwards the
scratch area holds exactly one entry for that digest. -/
theorem intern_dedup (fs : FS) (store : ResourceStore) (p1 p2 c : String)
    (h1 : get_file_hash fs p1 = some c) (h2 : get_file_hash fs p2 = some c)
    (h3 : listLookup (some c) store.resources = none) :
    ∃ n1 : String,
      copy_resource fs store p1 =
        Except.ok (⟨store.tempDirFiles ++ [n1], store.resources ++ [(some c, n1)]⟩, n1) ∧
      copy_resource fs
          (⟨store.tempDirFiles ++ [n1], store.resources ++ [(some c, n1)]⟩ : ResourceStore) p2 =
        Except.ok (⟨store.tempDirFiles ++ [n1], store.resources ++ [(some c, n1)]⟩, n1) ∧
      countKey (some c) (store.resources ++ [(some c, n1)]) = 1 ∧
      (basename p1 ∉ store.tempDirFiles → n1 = basename p1) := by
  refine ⟨resName store.tempDirFiles (splitext (basename p1)).1 (splitext (basename p1)).2
      (basename p1), ?_, ?_, ?_, ?_⟩
  · simp [copy_resource, h1, h3]
  · simp [copy_resource, h2, listLookup_append_self (some c) _ store.resources h3]
  · rw [countKey_append, countKey_eq_zero (some c) store.resources h3]
    simp [countKey]
  · intro h
    simp [resName, resNameAux, h]

/-- Witness for claim C3: two files with different names and directories but
identical content dedup to the single stored name `tex.png`. -/
theorem intern_dedup_witness :
    get_file_hash (⟨[("a/tex.png", "h"), ("b/copy.png", "h")]⟩ : FS) "a/tex.png" = some "h" ∧
    get_file_hash (⟨[("a/tex.png", "h"), ("b/copy.png", "h")]⟩ : FS) "b/copy.png" = some "h" ∧
    listLookup (some "h") ((⟨[], []⟩ : ResourceStore)).resources = none ∧
    (∃ n1 : String,
      copy_resource (⟨[("a/tex.png", "h"), ("b/copy.png", "h")]⟩ : FS) (⟨[], []⟩ : ResourceStore)
          "a/tex.png" =
        Except.ok (⟨[] ++ [n1], [] ++ [(some "h", n1)]⟩, n1) ∧
      copy_resource (⟨[("a/tex.png", "h"), ("b/copy.png", "h")]⟩ : FS)
          (⟨[] ++ [n1], [] ++ [(some "h", n1)]⟩ : ResourceStore) "b/copy.png" =
        Except.ok (⟨[] ++ [n1], [] ++ [(some "h", n1)]⟩, n1) ∧
      countKey (some "h") ([] ++ [(some "h", n1)]) = 1 ∧
      (basename "a/tex.png" ∉ ([] : List String) → n1 = basename "a/tex.png")) :=
  ⟨by decide, by decide, by decide,
   intern_dedup ⟨[("a/tex.png", "h"), ("b/copy.png", "h")]⟩ ⟨[], []⟩
     "a/tex.png" "b/copy.png" "h" (by decide) (by decide) (by decide)⟩

/-- Claim C4, counterexample.  The claim states that base-graph nodes whose
tracked relationship has no authored target are left unchanged.  On the
material axis the base-document branch has no such guard: a prim whose
`material:binding` relationship has zero targets is still processed — its
unconditional relationship spec is cleared and an (empty) target list is
authored inside the variant's edit context — so the state is not left
unchanged. -/
theorem base_conversion_counterexample :
    materialBasePrim "v"
        ((⟨[["Root", "Geo"]], [(["Root", "Geo"], ⟨[], none⟩)], [], ["Root"], 0, 0⟩ : Stage),
         (⟨"Material", ["v"], [], none⟩ : VariantSet)) ["Root", "Geo"]
      ≠ ((⟨[["Root", "Geo"]], [(["Root", "Geo"], ⟨[], none⟩)], [], ["Root"], 0, 0⟩ : Stage),
         (⟨"Material", ["v"], [], none⟩ : VariantSet)) := by
  decide

/-- Claim C4, amended.  When the variant entry being processed is the base
document itself: on both axes, every base-graph node carrying the tracked
relationship with at least one authored target has its targets (and, on the
material axis, its truthy `bindMaterialAs` metadata) captured, its
unconditional relationship spec cleared, and the same targets re-authored
inside that variant's edit context, after which the relationship is not
authored unconditionally.  Nodes without the tracked relationship are left
unchanged on both axes; nodes whose relationship has no authored target are
left unchanged on the animation axis only — on the material axis they are
processed all the same.  Edge metadata is captured only on the material
axis. -/
theorem base_conversion_amended :
    (∀ (v : String) (st : Stage) (vset : VariantSet) (p : PrimPath) (r : RelState),
       listLookup p st.matRels = some r →
       materialBasePrim v (st, vset) p =
         ({ st with matRels := eraseKey p st.matRels },
          { vset with
              selection := some v,
              edits := vset.edits ++
                [(v, ⟨p, ⟨r.targets, truthyMeta r.bindMaterialAs⟩⟩)] }) ∧
       listLookup p (materialBasePrim v (st, vset) p).1.matRels = none) ∧
    (∀ (v : String) (st : Stage) (vset : VariantSet) (p : PrimPath) (r : RelState),
       listLookup p st.animRels = some r → r.targets ≠ [] →
       animationBasePrim v (st, vset) p =
         ({ st with animRels := eraseKey p st.animRels },
          { vset with
              selection := some v,
              edits := vset.edits ++ [(v, ⟨p, ⟨r.targets, none⟩⟩)] }) ∧
       listLookup p (animationBasePrim v (st, vset) p).1.animRels = none) ∧
    (∀ (v : String) (st : Stage) (vset : VariantSet) (p : PrimPath) (r : RelState),
       listLookup p st.animRels = some r → r.targets = [] →
       animationBasePrim v (st, vset) p = (st, vset)) ∧
    (∀ (v : String) (st : Stage) (vset : VariantSet) (p : PrimPath),
       listLookup p st.matRels = none → materialBasePrim v (st, vset) p = (st, vset)) ∧
    (∀ (v : String) (st : Stage) (vset : VariantSet) (p : PrimPath),
       listLookup p st.animRels = none → animationBasePrim v (st, vset) p = (st, vset)) := by
  refine ⟨?_, ?_, ?_, ?_, ?_⟩
  · intro v st vset p r h
    have heq : materialBasePrim v (st, vset) p =
        ({ st with matRels := eraseKey p st.matRels },
         { vset with
             selection := some v,
             edits := vset.edits ++
               [(v, ⟨p, ⟨r.targets, truthyMeta r.bindMaterialAs⟩⟩)] }) := by
      simp [materialBasePrim, h]
    refine ⟨heq, ?_⟩
    rw [heq]
    exact listLookup_eraseKey p st.matRels
  · intro v st vset p r h hne
    have heq : animationBasePrim v (st, vset) p =
        ({ st with animRels := eraseKey p st.animRels },
         { vset with
             selection := some v,
             edits := vset.edits ++ [(v, ⟨p, ⟨r.targets, none⟩⟩)] }) := by
      simp [animationBasePrim, h, hne]
    refine ⟨heq, ?_⟩
    rw [heq]
    exact listLookup_eraseKey p st.animRels
  · intro v st vset p r h hempty
    simp [animationBasePrim, h, hempty]
  · intro v st vset p h
    simp [materialBasePrim, h]
  · intro v st vset p h
    simp [animationBasePrim, h]

/-- Witness for the amended claim C4 at concrete inputs: a bound material
prim, a bound animation prim, an unbound (empty-target) animation prim, and
prims without the relationships. -/
theorem base_conversion_witness :
    (listLookup (["Root", "Geo"] : PrimPath)
        [(["Root", "Geo"], (⟨[["Root", "Mat"]], some "weakerThanDescendants"⟩ : RelState))]
        = some ⟨[["Root", "Mat"]], some "weakerThanDescendants"⟩ ∧
      materialBasePrim "v"
        ((⟨[["Root", "Geo"]],
            [(["Root", "Geo"], ⟨[["Root", "Mat"]], some "weakerThanDescendants"⟩)],
            [], ["Root"], 0, 0⟩ : Stage),
         (⟨"Material", ["v"], [], none⟩ : VariantSet)) ["Root", "Geo"] =
        ({ (⟨[["Root", "Geo"]],
              [(["Root", "Geo"], ⟨[["Root", "Mat"]], some "weakerThanDescendants"⟩)],
              [], ["Root"], 0, 0⟩ : Stage) with
            matRels := eraseKey ["Root", "Geo"]
              [(["Root", "Geo"], ⟨[["Root", "Mat"]], some "weakerThanDescendants"⟩)] },
         { (⟨"Material", ["v"], [], none⟩ : VariantSet) with
             selection := some "v",
             edits := [] ++ [("v", ⟨["Root", "Geo"],
               ⟨[["Root", "Mat"]], truthyMeta (some "weakerThanDescendants")⟩⟩)] }) ∧
      listLookup (["Root", "Geo"] : PrimPath)
        (materialBasePrim "v"
          ((⟨[["Root", "Geo"]],
              [(["Root", "Geo"], ⟨[["Root", "Mat"]], some "weakerThanDescendants"⟩)],
              [], ["Root"], 0, 0⟩ : Stage),
           (⟨"Material", ["v"], [], none⟩ : VariantSet)) ["Root", "Geo"]).1.matRels = none) ∧
    (listLookup (["Root", "Skel"] : PrimPath)
        [(["Root", "Skel"], (⟨[], none⟩ : RelState))] = some ⟨[], none⟩ ∧
      (⟨[], none⟩ : RelState).targets = [] ∧
      animationBasePrim "v"
        ((⟨[["Root", "Skel"]], [], [(["Root", "Skel"], ⟨[], none⟩)], ["Root"], 0, 0⟩ : Stage),
         (⟨"Animation", ["v"], [], none⟩ : VariantSet)) ["Root", "Skel"] =
        ((⟨[["Root", "Skel"]], [], [(["Root", "Skel"], ⟨[], none⟩)], ["Root"], 0, 0⟩ : Stage),
         (⟨"Animation", ["v"], [], none⟩ : VariantSet))) :=
  ⟨⟨by decide,
    (base_conversion_amended.1 "v"
      ⟨[["Root", "Geo"]],
        [(["Root", "Geo"], ⟨[["Root", "Mat"]], some "weakerThanDescendants"⟩)],
        [], ["Root"], 0, 0⟩
      ⟨"Material", ["v"], [], none⟩ ["Root", "Geo"]
      ⟨[["Root", "Mat"]], some "weakerThanDescendants"⟩ (by decide)).1,
    (base_conversion_amended.1 "v"
      ⟨[["Root", "Geo"]],
        [(["Root", "Geo"], ⟨[["Root", "Mat"]], some "weakerThanDescendants"⟩)],
        [], ["Root"], 0, 0⟩
      ⟨"Material", ["v"], [], none⟩ ["Root", "Geo"]
      ⟨[["Root", "Mat"]], some "weakerThanDescendants"⟩ (by decide)).2⟩,
   ⟨by decide, by decide,
    base_conversion_amended.2.2.1 "v"
      ⟨[["Root", "Skel"]], [], [(["Root", "Skel"], ⟨[], none⟩)], ["Root"], 0, 0⟩
      ⟨"Animation", ["v"], [], none⟩ ["Root", "Skel"] ⟨[], none⟩ (by decide) (by decide)⟩⟩

/-- Claim C5: time-range reconciliation.  The range is seeded from the base
stage's own start/end time codes and updated once per non-base variant
document; with `maximize_timecode = True` ("widen", timecode-mode `max`) the
resulting stage's start is the minimum of the starts and its end the maximum
of the ends across the base and all variant documents, and with
`maximize_timecode = False` ("narrow", the default `min` mode) the dual
holds.  At the spec's example — base `[0, 10]`, variant A `[5, 20]`,
variant B `[-5, 8]` — widen yields `[-5, 20]` and narrow yields `[5, 8]`. -/
theorem time_range_reconciliation :
    (∀ (vsName : String) (entries : List (Option Stage × String)) (st : Stage),
      isMinOf (setup_animation_variants vsName true entries st).1.startTimeCode
        ((st :: entries.filterMap Prod.fst).map Stage.startTimeCode) ∧
      isMaxOf (setup_animation_variants vsName true entries st).1.endTimeCode
        ((st :: entries.filterMap Prod.fst).map Stage.endTimeCode)) ∧
    (∀ (vsName : String) (entries : List (Option Stage × String)) (st : Stage),
      isMaxOf (setup_animation_variants vsName false entries st).1.startTimeCode
        ((st :: entries.filterMap Prod.fst).map Stage.startTimeCode) ∧
      isMinOf (setup_animation_variants vsName false entries st).1.endTimeCode
        ((st :: entries.filterMap Prod.fst).map Stage.endTimeCode)) ∧
    ((setup_animation_variants "Animation" true
        [(none, "Base"),
         (some ⟨[], [], [], [], 5, 20⟩, "A"),
         (some ⟨[], [], [], [], -5, 8⟩, "B")]
        (⟨[], [], [], [], 0, 10⟩ : Stage)).1.startTimeCode = -5 ∧
     (setup_animation_variants "Animation" true
        [(none, "Base"),
         (some ⟨[], [], [], [], 5, 20⟩, "A"),
         (some ⟨[], [], [], [], -5, 8⟩, "B")]
        (⟨[], [], [], [], 0, 10⟩ : Stage)).1.endTimeCode = 20 ∧
     (setup_animation_variants "Animation" false
        [(none, "Base"),
         (some ⟨[], [], [], [], 5, 20⟩, "A"),
         (some ⟨[], [], [], [], -5, 8⟩, "B")]
        (⟨[], [], [], [], 0, 10⟩ : Stage)).1.startTimeCode = 5 ∧
     (setup_animation_variants "Animation" false
        [(none, "Base"),
         (some ⟨[], [], [], [], 5, 20⟩, "A"),
         (some ⟨[], [], [], [], -5, 8⟩, "B")]
        (⟨[], [], [], [], 0, 10⟩ : Stage)).1.endTimeCode = 8) := by
  refine ⟨?_, ?_, by decide⟩
  · intro vsName entries st
    have ht := setup_anim_time vsName true entries st
    rw [reconcile_fold_true] at ht
    have hs : (setup_animation_variants vsName true entries st).1.startTimeCode =
        List.foldl min st.startTimeCode ((entries.filterMap Prod.fst).map Stage.startTimeCode) :=
      congrArg Prod.fst ht
    have he : (setup_animation_variants vsName true entries st).1.endTimeCode =
        List.foldl max st.endTimeCode ((entries.filterMap Prod.fst).map Stage.endTimeCode) :=
      congrArg Prod.snd ht
    constructor
    · constructor
      · intro y hy
        rw [hs]
        exact foldl_min_le _ _ y (by simpa using hy)
      · rw [hs]
        simpa using foldl_min_mem ((entries.filterMap Prod.fst).map Stage.startTimeCode)
          st.startTimeCode
    · constructor
      · intro y hy
        rw [he]
        exact foldl_max_ge _ _ y (by simpa using hy)
      · rw [he]
        simpa using foldl_max_mem ((entries.filterMap Prod.fst).map Stage.endTimeCode)
          st.endTimeCode
  · intro vsName entries st
    have ht := setup_anim_time vsName false entries st
    rw [reconcile_fold_false] at ht
    have hs : (setup_animation_variants vsName false entries st).1.startTimeCode =
        List.foldl max st.startTimeCode ((entries.filterMap Prod.fst).map Stage.startTimeCode) :=
      congrArg Prod.fst ht
    have he : (setup_animation_variants vsName false entries st).1.endTimeCode =
        List.foldl min st.endTimeCode ((entries.filterMap Prod.fst).map Stage.endTimeCode) :=
      congrArg Prod.snd ht
    constructor
    · constructor
      · intro y hy
        rw [hs]
        exact foldl_max_ge _ _ y (by simpa using hy)
      · rw [hs]
        simpa using foldl_max_mem ((entries.filterMap Prod.fst).map Stage.startTimeCode)
          st.startTimeCode
    · constructor
      · intro y hy
        rw [he]
        exact foldl_min_le _ _ y (by simpa using hy)
      · rw [he]
        simpa using foldl_min_mem ((entries.filterMap Prod.fst).map Stage.endTimeCode)
          st.endTimeCode

/-- Witness for claim C5: the widen-policy characterization instantiated at
the spec's example documents. -/
theorem time_range_reconciliation_witness :
    isMinOf (setup_animation_variants "Animation" true
        [(none, "Base"),
         (some ⟨[], [], [], [], 5, 20⟩, "A"),
         (some ⟨[], [], [], [], -5, 8⟩, "B")]
        (⟨[], [], [], [], 0, 10⟩ : Stage)).1.startTimeCode
      (((⟨[], [], [], [], 0, 10⟩ : Stage) ::
          ([(none, "Base"),
            (some ⟨[], [], [], [], 5, 20⟩, "A"),
            (some ⟨[], [], [], [], -5, 8⟩, "B")].filterMap Prod.fst)).map
        Stage.startTimeCode) :=
  (time_range_reconciliation.1 "Animation"
    [(none, "Base"),
     (some ⟨[], [], [], [], 5, 20⟩, "A"),
     (some ⟨[], [], [], [], -5, 8⟩, "B")]
    ⟨[], [], [], [], 0, 10⟩).1

/-- Claim C7: for every non-empty ordered variant mapping, after all entries
are processed the axis's selected variant equals the variant name of the
first entry supplied by the caller, on both the material axis and the
animation axis (the final `vset.SetVariantSelection(list(values())[0])`
overrides every selection made during the loop). -/
theorem default_variant_is_first :
    (∀ (vsName : String) (e : Option Stage × String)
       (tl : List (Option Stage × String)) (st : Stage),
      ∃ (st2 : Stage) (vset : VariantSet),
        setup_material_variants vsName (e :: tl) st = (st2, some vset) ∧
        vset.selection = some e.2) ∧
    (∀ (vsName : String) (maxi : Bool) (e : Option Stage × String)
       (tl : List (Option Stage × String)) (st : Stage),
      ∃ (st2 : Stage) (vset : VariantSet),
        setup_animation_variants vsName maxi (e :: tl) st = (st2, some vset) ∧
        vset.selection = some e.2) := by
  constructor
  · intro vsName e tl st
    exact ⟨_, _, rfl, rfl⟩
  · intro vsName maxi e tl st
    exact ⟨_, _, rfl, rfl⟩

/-- Claim C8, counterexample.  The claim states that every recorded scratch
directory is removed on every exit path with guaranteed-release semantics.
`cleanup` swallows every `OSError` from `shutil.rmtree`, so a recorded
directory whose removal fails is silently left in place: after running
cleanup over a world where `scratch` exists but cannot be removed, `scratch`
still exists. -/
theorem cleanup_counterexample :
    cleanup (⟨["scratch"], ["scratch"]⟩ : World) ["scratch"]
        = (⟨["scratch"], ["scratch"]⟩ : World) ∧
    "scratch" ∈ (cleanup (⟨["scratch"], ["scratch"]⟩ : World) ["scratch"]).dirs := by
  decide

/-- Claim C8, amended.  `cleanup` is best-effort, not guaranteed release: it
attempts `shutil.rmtree` on each recorded scratch directory and swallows
every `OSError`, so exactly the recorded directories whose removal succeeds
are removed, a recorded directory whose removal fails survives, and
unrecorded directories are untouched; moreover `cleanup` is only triggered
from the object finalizer (`__del__`), not from a scope guard on the merge's
exit paths. -/
theorem cleanup_best_effort_amended (w : World) (ds : List String)
    (hnd : w.dirs.Nodup) :
    (cleanup w ds).dirs
        = w.dirs.filter (fun d => decide (d ∈ w.locked) || !decide (d ∈ ds)) ∧
    (cleanup w ds).locked = w.locked :=
  ⟨cleanup_dirs_eq ds w hnd, cleanup_locked_eq ds w⟩

/-- Witness for the amended claim C8: of two recorded directories, the
removable one is removed and the locked one survives; the unrecorded one is
untouched. -/
theorem cleanup_best_effort_witness :
    (["tmpA", "tmpB", "other"] : List String).Nodup ∧
    (cleanup (⟨["tmpA", "tmpB", "other"], ["tmpB"]⟩ : World) ["tmpA", "tmpB"]).dirs
        = (["tmpA", "tmpB", "other"] : List String).filter
            (fun d => decide (d ∈ (["tmpB"] : List String)) ||
              !decide (d ∈ (["tmpA", "tmpB"] : List String))) ∧
    (cleanup (⟨["tmpA", "tmpB", "other"], ["tmpB"]⟩ : World) ["tmpA", "tmpB"]).locked
        = ["tmpB"] :=
  ⟨by decide,
   (cleanup_best_effort_amended ⟨["tmpA", "tmpB", "other"], ["tmpB"]⟩ ["tmpA", "tmpB"]
     (by decide)).1,
   (cleanup_best_effort_amended ⟨["tmpA", "tmpB", "other"], ["tmpB"]⟩ ["tmpA", "tmpB"]
     (by decide)).2⟩

/-- Claim C9: when a cloned target prim's parent path does not exist in the
combined stage, `copy_prim` does not fail or skip: it falls back to the
default prim as the destination parent, and the clone ends up as a child of
the default prim. -/
theorem orphan_clone_under_default_prim (st src : Stage) (srcPath : PrimPath)
    (h1 : srcPath.dropLast ∉ st.prims) (h2 : srcPath.dropLast ≠ [])
    (h3 : srcPath ∈ src.prims) :
    (copy_prim st src srcPath).2.dropLast = st.defaultPrim ∧
    (copy_prim st src srcPath).2 ∈ (copy_prim st src srcPath).1.prims := by
  have hcond : ¬(srcPath.dropLast = [] ∨ srcPath.dropLast ∈ st.prims) := by
    push_neg
    exact ⟨h2, h1⟩
  constructor
  · simp only [copy_prim, hcond, if_false]
    simp
  · simp only [copy_prim, hcond, if_false]
    apply List.mem_append_right
    apply List.mem_filterMap.mpr
    refine ⟨srcPath, h3, ?_⟩
    simp [List.take_length, List.drop_length]

/-- Witness for claim C9: cloning `/Root/Sub/Anim` into a combined stage that
lacks `/Root/Sub` places the clone under the default prim `/Root`. -/
theorem orphan_clone_witness :
    ((["Root", "Sub", "Anim"] : PrimPath).dropLast
        ∉ (⟨[["Root"]], [], [], ["Root"], 0, 0⟩ : Stage).prims) ∧
    ((["Root", "Sub", "Anim"] : PrimPath).dropLast ≠ []) ∧
    ((["Root", "Sub", "Anim"] : PrimPath)
        ∈ (⟨[["Root"], ["Root", "Sub"], ["Root", "Sub", "Anim"]], [], [],
            ["Root"], 0, 0⟩ : Stage).prims) ∧
    (copy_prim (⟨[["Root"]], [], [], ["Root"], 0, 0⟩ : Stage)
        (⟨[["Root"], ["Root", "Sub"], ["Root", "Sub", "Anim"]], [], [],
          ["Root"], 0, 0⟩ : Stage)
        ["Root", "Sub", "Anim"]).2.dropLast
      = (⟨[["Root"]], [], [], ["Root"], 0, 0⟩ : Stage).defaultPrim ∧
    (copy_prim (⟨[["Root"]], [], [], ["Root"], 0, 0⟩ : Stage)
        (⟨[["Root"], ["Root", "Sub"], ["Root", "Sub", "Anim"]], [], [],
          ["Root"], 0, 0⟩ : Stage)
        ["Root", "Sub", "Anim"]).2
      ∈ (copy_prim (⟨[["Root"]], [], [], ["Root"], 0, 0⟩ : Stage)
          (⟨[["Root"], ["Root", "Sub"], ["Root", "Sub", "Anim"]], [], [],
            ["Root"], 0, 0⟩ : Stage)
          ["Root", "Sub", "Anim"]).1.prims :=
  ⟨by decide, by decide, by decide,
   (orphan_clone_under_default_prim
     ⟨[["Root"]], [], [], ["Root"], 0, 0⟩
     ⟨[["Root"], ["Root", "Sub"], ["Root", "Sub", "Anim"]], [], [], ["Root"], 0, 0⟩
     ["Root", "Sub", "Anim"] (by decide) (by decide) (by decide)).1,
   (orphan_clone_under_default_prim
     ⟨[["Root"]], [], [], ["Root"], 0, 0⟩
     ⟨[["Root"], ["Root", "Sub"], ["Root", "Sub", "Anim"]], [], [], ["Root"], 0, 0⟩
     ["Root", "Sub", "Anim"] (by decide) (by decide) (by decide)).2⟩

/-- Claim C10: `cleanup` is total and idempotent.  Attempting to remove a
directory that does not (or no longer does) exist makes `shutil.rmtree` raise
an `OSError`, which `cleanup` swallows, returning normally with the state
unchanged; and running `cleanup` a second time over the same recorded
directories (as happens with an explicit call followed by the `__del__`
teardown call) changes nothing. -/
theorem cleanup_idempotent_total :
    (∀ (w : World) (p : String), p ∉ w.dirs →
        rmtree w p = Except.error () ∧ cleanup w [p] = w) ∧
    (∀ (w : World) (ds : List String), w.dirs.Nodup →
        cleanup (cleanup w ds) ds = cleanup w ds) := by
  constructor
  · intro w p h
    constructor
    · simp [rmtree, h]
    · show cleanupStep w p = w
      simp [cleanupStep, rmtree, h]
  · intro w ds hnd
    have h1 := cleanup_dirs_eq ds w hnd
    have hnd2 : (cleanup w ds).dirs.Nodup := by
      rw [h1]
      exact hnd.filter _
    have h2 := cleanup_dirs_eq ds (cleanup w ds) hnd2
    ext1
    · rw [h2, cleanup_locked_eq, h1, List.filter_filter]
      apply List.filter_congr
      intro d hd
      cases hb : (decide (d ∈ w.locked) || !decide (d ∈ ds)) <;> simp [hb]
    · rw [cleanup_locked_eq, cleanup_locked_eq]

/-- Witness for claim C10: a missing directory is swallowed, and cleanup over
a concrete world is idempotent. -/
theorem cleanup_idempotent_total_witness :
    ("gone" ∉ (⟨["a"], []⟩ : World).dirs ∧
      rmtree (⟨["a"], []⟩ : World) "gone" = Except.error () ∧
      cleanup (⟨["a"], []⟩ : World) ["gone"] = (⟨["a"], []⟩ : World)) ∧
    ((⟨["a", "b"], []⟩ : World).dirs.Nodup ∧
      cleanup (cleanup (⟨["a", "b"], []⟩ : World) ["a", "gone"]) ["a", "gone"]
        = cleanup (⟨["a", "b"], []⟩ : World) ["a", "gone"]) :=
  ⟨⟨by decide, (cleanup_idempotent_total.1 ⟨["a"], []⟩ "gone" (by decide)).1,
    (cleanup_idempotent_total.1 ⟨["a"], []⟩ "gone" (by decide)).2⟩,
   ⟨by decide, cleanup_idempotent_total.2 ⟨["a", "b"], []⟩ ["a", "gone"] (by decide)⟩⟩
